import Mathlib

/-!
Verification of the chatsky dialog-flow framework core against its
natural-language specification.

The Lean definitions below are shallow embeddings of the Python sources:

* `Chatsky.Component` embeds `chatsky/core/service/component.py`
  (`PipelineComponent._run`): the per-run protocol of a pipeline
  component, with the `asyncio.wait_for` timeout modelled as a cut of
  the run after a given number of atomic steps, and exceptions modelled
  as `Except`/flags.
* `Chatsky.Group` embeds `chatsky/pipeline/service/group.py`
  (`ServiceGroup.run_component`, `ServiceGroup.calculate_async_flag`):
  the scheduler, with each child's observable behaviour given as a list
  of event chunks separated by suspension points; `asyncio.gather` over
  cooperative coroutines is modelled as a round-robin interleaving of
  the chunks.
* `Chatsky.Store` embeds `chatsky/context_storages/sql.py` (and the
  semantically identical `mongo.py`): the `turns` table is a list of
  rows unique on `(id, key)`, SQL statements are translated to filters,
  an insertion sort models `ORDER BY key DESC`, and the dialect upsert
  is modelled directly.
* `Chatsky.Ctx` embeds `chatsky/core/context.py` (`Context.__eq__`,
  `Context.connected`, `Context.last_label` / `last_request` /
  `last_response`).  Field values are modelled by simple concrete types
  (`String` blobs, an opaque `Nat` token for `FrameworkData`), which is
  faithful for the claims, all of which only compare or move the values.
-/

namespace Chatsky

/-- `ComponentExecutionState` from `chatsky/core/service/types.py`. -/
inductive ComponentExecutionState where
  | NOT_RUN
  | RUNNING
  | FINISHED
  | FAILED
deriving DecidableEq, Repr

namespace Component

open ComponentExecutionState

/-- Observable atomic steps of one `PipelineComponent._run` invocation:
state writes into `framework_data.service_states[path]` and the
completion of each of the three awaited parts of the body. -/
inductive RunEvent where
  | setState (s : ComponentExecutionState)
  | beforeDone
  | bodyDone
  | afterDone
deriving DecidableEq, Repr

/-- One run's environment: the outcome of each user-supplied part of the
component, plus the timeout.  `start_condition` either raises or yields a
Bool; `run_component` either raises or returns an optional explicit
state; the two extra-handler lists either complete or raise.  `timeout`
is the `asyncio.wait_for` budget measured in atomic steps of the run
(`none` = no timeout, mirroring `timeout = None`). -/
structure RunSpec where
  start_condition : Except Unit Bool
  before_raises : Bool
  run_component : Except Unit (Option ComponentExecutionState)
  after_raises : Bool
  timeout : Option Nat
deriving Repr

/-- Embeds `_inner_run` of `PipelineComponent._run`:
if the start condition holds, run `before_handler`, set `RUNNING`, run
`run_component`, record its explicit result or `FINISHED`, then run
`after_handler`; otherwise set `NOT_RUN`.  Returns the executed steps
and whether an exception escaped. -/
def inner_run (s : RunSpec) : List RunEvent × Bool :=
  match s.start_condition with
  | .error _ => ([], true)
  | .ok false => ([.setState NOT_RUN], false)
  | .ok true =>
    if s.before_raises then ([], true)
    else
      match s.run_component with
      | .error _ => ([.beforeDone, .setState RUNNING], true)
      | .ok r =>
        if s.after_raises then
          ([.beforeDone, .setState RUNNING, .bodyDone, .setState (r.getD FINISHED)], true)
        else
          ([.beforeDone, .setState RUNNING, .bodyDone, .setState (r.getD FINISHED),
            .afterDone], false)

/-- Embeds `asyncio.wait_for(_inner_run(), timeout=self.timeout)`: if the
timeout budget runs out before the inner run completes, the inner
coroutine is cancelled at that point and a `TimeoutError` is raised. -/
def timed_run (s : RunSpec) : List RunEvent × Bool :=
  match s.timeout with
  | none => inner_run s
  | some n =>
    if n < (inner_run s).1.length then ((inner_run s).1.take n, true)
    else inner_run s

/-- `true` when the timeout does not interrupt the run. -/
def no_cut (s : RunSpec) : Bool :=
  match s.timeout with
  | none => true
  | some n => decide ((inner_run s).1.length ≤ n)

/-- The final recorded execution state after a list of steps, starting
from the `ServiceState` default `NOT_RUN`. -/
def final_state (steps : List RunEvent) : ComponentExecutionState :=
  steps.foldl (fun acc e => match e with | .setState st => st | _ => acc) NOT_RUN

/-- Embeds `PipelineComponent._run`: run the timed body; on any escaped
exception (including the timeout) set the state to `FAILED` and swallow
the exception; in a `finally` block, always set the `finished_event`.
Returns `(executed steps, final recorded state, finished_event set)`. -/
def run (s : RunSpec) : List RunEvent × ComponentExecutionState × Bool :=
  let t := timed_run s
  let steps := if t.2 then t.1 ++ [.setState FAILED] else t.1
  (steps, final_state steps, true)

end Component

namespace Group

open ComponentExecutionState

/-- A child of a `ServiceGroup`, as the group's scheduler observes it
(`chatsky/pipeline/service/group.py`): its `asynchronous` flag, its
observable behaviour as a list of event chunks separated by the child's
own suspension points, and the execution state it records in
`framework_data.service_states` (the component `__call__` catches every
exception, so a child always completes and only its recorded state
differs). -/
structure Child where
  asynchronous : Bool
  chunks : List (List String)
  state : ComponentExecutionState
deriving DecidableEq, Repr

/-- Embeds `ServiceGroup.calculate_async_flag`:
`all([service.asynchronous for service in self.components])`. -/
def calculate_async_flag (components : List Child) : Bool :=
  components.all (fun c => c.asynchronous)

/-- Sum of queue lengths, the termination measure of the round-robin
interleaving. -/
def sum_len (qs : List (List (List String))) : Nat :=
  (qs.map List.length).sum

/-- One scheduler round: the head chunk of every queue, in order. -/
def rr_round (qs : List (List (List String))) : List String :=
  (qs.filterMap List.head?).flatten

/-- The queues left for the next round: drop every emitted head chunk
and retire exhausted queues. -/
def rr_rest (qs : List (List (List String))) : List (List (List String)) :=
  (qs.map List.tail).filter (fun q => !q.isEmpty)

/-- Fuelled round-robin interleaving. -/
def rr_go : Nat → List (List (List String)) → List String
  | 0, _ => []
  | n + 1, qs => if qs.isEmpty then [] else rr_round qs ++ rr_go n (rr_rest qs)

/-- `asyncio.gather` over cooperative coroutines modelled as round-robin
interleaving of their chunk queues: each round runs every still-live
task, in order, up to its next suspension point. -/
def round_robin (qs : List (List (List String))) : List String :=
  rr_go (sum_len qs) (qs.filter (fun q => !q.isEmpty))

/-- Embeds the scheduling of `ServiceGroup.run_component` for a group
with no explicit `requested_async_flag` (its `asynchronous` property is
then the calculated flag; see `ServiceGroup.run_trace` for the general
dispatch): when the group is asynchronous, all children are dispatched
concurrently through `asyncio.gather`; otherwise every child is awaited
to completion in declaration order.  Returns the group's observable
event trace. -/
def run_component_trace (components : List Child) : List String :=
  if calculate_async_flag components then
    round_robin (components.map (fun c => c.chunks))
  else
    (components.map (fun c => c.chunks.flatten)).flatten

/-- A `ServiceGroup` as the scheduler sees it: the explicitly requested
asynchronous property (group.py:54) and the child components. -/
structure ServiceGroup where
  requested_async_flag : Option Bool
  components : List Child
deriving DecidableEq, Repr

/-- Modelled from the spec: the `asynchronous` property that
`ServiceGroup.run_component` dispatches on (group.py:111).  The
`PipelineComponent` base of this variant
(`chatsky/pipeline/pipeline/component.py`) is absent from the sources;
per the `requested_async_flag` parameter doc (group.py:54) and the
optimization warnings (group.py:145-150) an explicit request of `False`
forces an asynchronous-capable group synchronous, and per the class
docstring a group "can be asynchronous only if all components in it are
asynchronous", so an explicit request of `True` cannot make a mixed
group asynchronous. -/
def ServiceGroup.asynchronous (g : ServiceGroup) : Bool :=
  g.requested_async_flag.getD true && calculate_async_flag g.components

/-- Embeds the scheduling of `ServiceGroup.run_component`, keyed on the
group's `asynchronous` property: concurrent round-robin dispatch when it
holds, sequential execution in declaration order otherwise. -/
def ServiceGroup.run_trace (g : ServiceGroup) : List String :=
  if g.asynchronous then round_robin (g.components.map (fun c => c.chunks))
  else (g.components.map (fun c => c.chunks.flatten)).flatten

/-- Embeds the final lines of `ServiceGroup.run_component`: the group
records `FAILED` when some child's state is `FAILED`, else `FINISHED`. -/
def run_component_state (components : List Child) : ComponentExecutionState :=
  if components.any (fun c => c.state == FAILED) then FAILED else FINISHED

/-- Modelled from the spec: the §4.6 execution rule of a service group
(the `chatsky/core/service/group.py` variant of `ServiceGroup`, whose
source is absent from the sources; its behaviour is asserted by
`tests/pipeline/test_pipeline.py::test_async_services`): walk the
children in declaration order, keep a contiguous subgroup of
asynchronous children, and on every synchronous child first await the
subgroup in parallel, then run the synchronous child alone, then start
a fresh subgroup; flush the final subgroup at the end. -/
def subgroup_go (acc : List Child) : List Child → List String
  | [] => round_robin (acc.map (fun c => c.chunks))
  | c :: rest =>
    if c.asynchronous then subgroup_go (acc ++ [c]) rest
    else
      round_robin (acc.map (fun c => c.chunks)) ++ c.chunks.flatten ++ subgroup_go [] rest

/-- Modelled from the spec: the contiguous-parallel-subgroup trace of a
service group (see `subgroup_go`). -/
def subgroup_run_trace (components : List Child) : List String :=
  subgroup_go [] components

end Group

namespace Store

/-- Serialized field values; the storage contract traffics in opaque
byte blobs, modelled as strings. -/
abbrev Blob := String

/-- The three turn-indexed history fields (`NameConfig._labels_field`,
`_requests_field`, `_responses_field`). -/
inductive F where
  | labels
  | requests
  | responses
deriving DecidableEq, Repr

/-- One row of the `turns` table of `SQLContextStorage` (equally, one
document of the mongo `turns` collection): context id, turn key, and one
nullable blob column per history field.  The table carries a unique
index on `(id, key)`. -/
structure Row where
  id : String
  key : Nat
  labels : Option Blob
  requests : Option Blob
  responses : Option Blob
deriving DecidableEq, Repr

/-- Read the column of one field. -/
def Row.get (r : Row) : F → Option Blob
  | .labels => r.labels
  | .requests => r.requests
  | .responses => r.responses

/-- Write the column of one field. -/
def Row.set (r : Row) (f : F) (v : Option Blob) : Row :=
  match f with
  | .labels => { r with labels := v }
  | .requests => { r with requests := v }
  | .responses => { r with responses := v }

abbrev Table := List Row

/-- The unique index `(id, key)` of the `turns` table: no two rows share
the id/key pair. -/
abbrev wf (t : Table) : Prop :=
  t.Pairwise (fun r s => r.id ≠ s.id ∨ r.key ≠ s.key)

/-- A fresh row holding a value in exactly one field column. -/
def fresh_row (i : String) (k : Nat) (f : F) (v : Option Blob) : Row :=
  Row.set { id := i, key := k, labels := none, requests := none, responses := none } f v

/-- The per-field subscription (`_SUBSCRIPT_DICT` values): an integer
limit, an explicit key set, or everything. -/
inductive Subscript where
  | num (n : Nat)
  | keyset (ks : List Nat)
  | all
deriving DecidableEq, Repr

/-- `ORDER BY key DESC`: key of the right row is at most the key of the
left row. -/
def key_desc (a b : Nat × Blob) : Prop := b.1 ≤ a.1

instance : DecidableRel key_desc := fun a b => Nat.decLe b.1 a.1

instance : IsTotal (Nat × Blob) key_desc := ⟨fun a b => Nat.le_total b.1 a.1⟩

instance : IsTrans (Nat × Blob) key_desc := ⟨fun _ _ _ h h2 => Nat.le_trans h2 h⟩

/-- The non-null `(key, value)` pairs of one context's field:
`WHERE id = ctx_id AND field IS NOT NULL`. -/
def entries (t : Table) (i : String) (f : F) : List (Nat × Blob) :=
  t.filterMap (fun r =>
    if r.id = i then (r.get f).map (fun v => (r.key, v)) else none)

/-- Embeds `SQLContextStorage._load_field_latest` (and the equivalent
`MongoContextStorage.load_field_latest`): select the non-null pairs of
the context's field, restricted to the key set when the subscript is an
explicit set, ordered by key descending, and limited to the first `n`
rows when the subscript is an integer. -/
def load_field_latest (t : Table) (sub : Subscript) (i : String) (f : F) :
    List (Nat × Blob) :=
  let base :=
    match sub with
    | .keyset ks => (entries t i f).filter (fun p => p.1 ∈ ks)
    | _ => entries t i f
  let sorted := List.insertionSort key_desc base
  match sub with
  | .num n => sorted.take n
  | _ => sorted

/-- The claim-side reading of "the stored value of the context's field
at key `k` is the non-null blob `v`". -/
abbrev row_val (t : Table) (i : String) (f : F) (k : Nat) (v : Blob) : Prop :=
  ∃ r ∈ t, r.id = i ∧ r.key = k ∧ r.get f = some v

/-- How many non-null keys of the context's field exceed `k`: `k` is
among the last `n` keys exactly when this count is below `n`. -/
def above_count (t : Table) (i : String) (f : F) (k : Nat) : Nat :=
  ((entries t i f).filter (fun p => k < p.1)).length

/-- Embeds `SQLContextStorage._load_field_keys`: every key of the
context whose field column is non-null. -/
def load_field_keys (t : Table) (i : String) (f : F) : List Nat :=
  (entries t i f).map Prod.fst

/-- Embeds `SQLContextStorage._load_field_items` (and
`MongoContextStorage.load_field_items`): the non-null pairs of the
context's field whose key lies in the requested window. -/
def load_field_items (t : Table) (i : String) (f : F) (keys : List Nat) :
    List (Nat × Blob) :=
  t.filterMap (fun r =>
    if r.id = i ∧ r.key ∈ keys then (r.get f).map (fun v => (r.key, v)) else none)

/-- One dialect upsert on the unique index `(id, key)`: update the field
column of the existing row, or insert a fresh row. -/
def upsert_one (t : Table) (i : String) (f : F) (kv : Nat × Option Blob) : Table :=
  if t.any (fun r => r.id == i && r.key == kv.1) then
    t.map (fun r => if r.id = i ∧ r.key = kv.1 then r.set f kv.2 else r)
  else
    t ++ [fresh_row i kv.1 f kv.2]

/-- Embeds `SQLContextStorage._update_field_items` (and
`MongoContextStorage.update_field_items`): upsert each `(key, value)`
item of the field in order. -/
def update_field_items (t : Table) (i : String) (f : F)
    (items : List (Nat × Option Blob)) : Table :=
  items.foldl (fun acc kv => upsert_one acc i f kv) t

end Store

namespace Ctx

open Store

/-- The two failure modes of the `last_*` accessors: the explicit
`ContextError` raised on an empty history, and the raw `KeyError` of a
direct `_items[...]` lookup of an unmaterialised key. -/
inductive AccessError where
  | contextError
  | keyError
deriving DecidableEq, Repr

/-- Modelled from the spec: `ContextDict` (`chatsky/core/ctx_dict.py` is
absent from the sources).  Per §4.1 it is a partially-loaded view over
one turn-indexed field: `items` is the materialised key→value mapping,
which may be sparse relative to storage, and `keys` is the full set of
keys known to exist in storage; `keys()` reads the latter sorted
ascending and `len` is its size. -/
structure ContextDict where
  items : List (Nat × Blob)
  keys : List Nat
deriving DecidableEq, Repr

namespace ContextDict

/-- `len(d)`: the number of keys known to exist. -/
def len (d : ContextDict) : Nat := d.keys.length

/-- `d.keys()`: the known keys, sorted ascending. -/
def sorted_keys (d : ContextDict) : List Nat :=
  List.insertionSort (fun a b => a ≤ b) d.keys

/-- `d.keys()[-1]`: the last (greatest) key, when any. -/
def last_key (d : ContextDict) : Option Nat := d.sorted_keys.getLast?

/-- `d._items[k]`: the materialised value at a key, `none` when the key
is not materialised. -/
def get (d : ContextDict) (k : Nat) : Option Blob :=
  (d.items.find? (fun p => p.1 == k)).map Prod.snd

/-- `d.update({k: v})`: overwrite or append one binding, and record the
key as existing. -/
def update (d : ContextDict) (k : Nat) (v : Blob) : ContextDict :=
  { items :=
      if d.items.any (fun p => p.1 == k) then
        d.items.map (fun p => if p.1 = k then (k, v) else p)
      else
        d.items ++ [(k, v)]
    keys := if d.keys.contains k then d.keys else d.keys ++ [k] }

/-- Modelled from the spec: `ContextDict.new` (file absent) — a fresh
empty dict bound to the storage. -/
def new : ContextDict := ⟨[], []⟩

end ContextDict

/-- `ContextInfo` of `chatsky/context_storages/database.py` (file absent
from the sources; its shape is read off `Context.connected` and
`SQLContextStorage._load_main_info`): the per-context header row.
`misc` is a string map and `framework_data` an opaque token. -/
structure ContextInfo where
  turn_id : Nat
  created_at : Nat
  updated_at : Nat
  misc : List (String × String)
  framework_data : Nat
deriving DecidableEq, Repr

/-- A context storage, restricted to what `Context.connected` consumes:
the main-info header per context id, the `turns` table, and the
per-field subscripts. -/
structure Storage where
  main : String → Option ContextInfo
  turns : Table
  subscripts : F → Subscript

/-- Modelled from the spec: `ContextDict.connected(storage, id, field)`
(file absent) — materialise the subscribed slice of the field (the
result of `load_field_latest`) and cache the full key set (the result
of `load_field_keys`). -/
def ContextDict.connected (s : Storage) (i : String) (f : F) : ContextDict :=
  { items := load_field_latest s.turns (s.subscripts f) i f
    keys := load_field_keys s.turns i f }

/-- Embeds `chatsky/core/context.py` `Context`, restricted to the fields
the claims compare or construct.  `framework_data` is an opaque token,
`storage` the identity of the attached `_storage` (if any), and
`created_at`/`updated_at` the two private timestamps. -/
structure Context where
  id : String
  current_turn_id : Nat
  labels : ContextDict
  requests : ContextDict
  responses : ContextDict
  misc : List (String × String)
  framework_data : Nat
  created_at : Nat
  updated_at : Nat
  storage : Option Nat
deriving DecidableEq, Repr

namespace Context

/-- Embeds `Context.__eq__`: compare `id`, `current_turn_id`, `labels`,
`requests`, `responses`, `misc`, `framework_data` and `_storage`; the
two timestamps are not read. -/
def eq (a b : Context) : Bool :=
  decide (a.id = b.id) && decide (a.current_turn_id = b.current_turn_id) &&
    decide (a.labels = b.labels) && decide (a.requests = b.requests) &&
    decide (a.responses = b.responses) && decide (a.misc = b.misc) &&
    decide (a.framework_data = b.framework_data) && decide (a.storage = b.storage)

/-- Embeds `Context.connected`.  The non-deterministic inputs of the
source are passed explicitly: `stok` identifies the storage object,
`now` is `time_ns()`, and `uid` the `uuid4()` drawn for a fresh context.
Without an id: a fresh context at turn 0 whose labels map turn 0 to the
start label.  With an id: the main info and the three field dicts are
read from the storage (the source gathers the four loads in parallel;
they commute, so the model reads them directly); a missing header falls
back to a fresh turn-0 context over the loaded dicts. -/
def connected (s : Storage) (stok now : Nat) (start_label : Blob)
    (id : Option String) (uid : String) : Context :=
  match id with
  | none =>
    { id := uid
      current_turn_id := 0
      labels := ContextDict.new.update 0 start_label
      requests := ContextDict.new
      responses := ContextDict.new
      misc := []
      framework_data := 0
      created_at := now
      updated_at := now
      storage := some stok }
  | some i =>
    let labels := ContextDict.connected s i .labels
    let requests := ContextDict.connected s i .requests
    let responses := ContextDict.connected s i .responses
    match s.main i with
    | none =>
      { id := i
        current_turn_id := 0
        labels := labels.update 0 start_label
        requests := requests
        responses := responses
        misc := []
        framework_data := 0
        created_at := now
        updated_at := now
        storage := some stok }
    | some m =>
      { id := i
        current_turn_id := m.turn_id
        labels := labels
        requests := requests
        responses := responses
        misc := m.misc
        framework_data := m.framework_data
        created_at := m.created_at
        updated_at := m.updated_at
        storage := some stok }

/-- The accessor pattern shared by the three `last_*` properties of
`Context`: raise `ContextError` when the dict is empty
(`len(...) == 0`), otherwise read `_items[keys()[-1]]` — which raises
the lookup's `KeyError` when the greatest known key was left
unmaterialised by the subscript. -/
def last_item (d : ContextDict) : Except AccessError Blob :=
  if d.len = 0 then .error .contextError
  else
    match d.last_key with
    | none => .error .contextError
    | some k =>
      match d.get k with
      | some v => .ok v
      | none => .error .keyError

/-- Embeds the `Context.last_label` property. -/
def last_label (c : Context) : Except AccessError Blob := last_item c.labels

/-- Embeds the `Context.last_request` property. -/
def last_request (c : Context) : Except AccessError Blob := last_item c.requests

/-- Embeds the `Context.last_response` property. -/
def last_response (c : Context) : Except AccessError Blob := last_item c.responses

end Context

end Ctx

/-- Concrete run refuting C1: the start condition holds, the before
handler completes, and `run_component` raises; there is no timeout. -/
def c1_cex_spec : Component.RunSpec :=
  { start_condition := .ok true
    before_raises := false
    run_component := .error ()
    after_raises := false
    timeout := none }

/-- The group of `tests/pipeline/test_pipeline.py::test_async_services`:
two asynchronous children of three steps each, followed by a synchronous
child of three steps; all children end `FINISHED`. -/
def test_async_group : List Group.Child :=
  [ { asynchronous := true, chunks := [["A1"], ["A2"], ["A3"]],
      state := .FINISHED }
  , { asynchronous := true, chunks := [["B1"], ["B2"], ["B3"]],
      state := .FINISHED }
  , { asynchronous := false, chunks := [["C1"], ["C2"], ["C3"]],
      state := .FINISHED } ]

/-- A concrete context used to test `Context.__eq__` and the `last_*`
accessors. -/
def c3_ctx_a : Ctx.Context :=
  { id := "ctx"
    current_turn_id := 1
    labels := ⟨[(0, "start"), (1, "greet")], [0, 1]⟩
    requests := ⟨[(1, "hi")], [1]⟩
    responses := ⟨[(1, "hello")], [1]⟩
    misc := [("k", "v")]
    framework_data := 0
    created_at := 5
    updated_at := 6
    storage := none }

/-- `c3_ctx_a` with different `framework_data` and timestamps. -/
def c3_ctx_b : Ctx.Context :=
  { c3_ctx_a with framework_data := 1, created_at := 7, updated_at := 8 }

/-- A context whose labels dict knows keys 0 and 1 but, because of a
key-set subscript excluding the newest turn, only materialised key 0. -/
def c9_sparse_ctx : Ctx.Context :=
  { c3_ctx_a with labels := ⟨[(0, "start")], [0, 1]⟩ }

/-- The main info of the single context of `c6_storage`. -/
def c6_main_info : Ctx.ContextInfo :=
  { turn_id := 3
    created_at := 11
    updated_at := 12
    misc := [("a", "b")]
    framework_data := 4 }

/-- A storage holding one context, used to witness `Context.connected`. -/
def c6_storage : Ctx.Storage :=
  { main := fun j => if j = "ctx" then some c6_main_info else none
    turns := [ { id := "ctx", key := 0, labels := some "L0",
                 requests := none, responses := none } ]
    subscripts := fun _ => .all }

/-- A turns table with two non-null request entries, one null request
entry and one row of another context, used to witness
`load_field_latest`. -/
def c8_table : Store.Table :=
  [ { id := "ctx", key := 0, labels := some "L0", requests := some "r0",
      responses := none }
  , { id := "ctx", key := 1, labels := none, requests := some "r1",
      responses := none }
  , { id := "ctx", key := 2, labels := none, requests := none,
      responses := some "resp" }
  , { id := "other", key := 0, labels := none, requests := some "x",
      responses := none } ]

/-- An all-asynchronous group explicitly requested synchronous. -/
def c10_cex_group : Group.ServiceGroup :=
  { requested_async_flag := some false
    components :=
      [ { asynchronous := true, chunks := [["a1"], ["a2"]], state := .FINISHED }
      , { asynchronous := true, chunks := [["b1"], ["b2"]], state := .FINISHED } ] }

/-- A group of two asynchronous children, the first of which failed. -/
def failed_group_example : List Group.Child :=
  [ { asynchronous := true, chunks := [["x"]], state := .FAILED }
  , { asynchronous := true, chunks := [["y"]], state := .FINISHED } ]

/-! ## Lemmas about the component run protocol -/

namespace Component

open ComponentExecutionState

theorem timed_run_of_no_cut (s : RunSpec) (h : no_cut s = true) :
    timed_run s = inner_run s := by
  unfold no_cut at h
  unfold timed_run
  cases htm : s.timeout with
  | none => rfl
  | some n =>
    rw [htm] at h
    simp only [decide_eq_true_eq] at h
    simp [Nat.not_lt.mpr h]

theorem final_state_append_set (l : List RunEvent) (st : ComponentExecutionState) :
    final_state (l ++ [.setState st]) = st := by
  simp [final_state, List.foldl_append]

theorem afterDone_not_mem_inner_of_raised (s : RunSpec)
    (h : (inner_run s).2 = true) : RunEvent.afterDone ∉ (inner_run s).1 := by
  rcases s with ⟨sc, br, rc, ar, tm⟩
  rcases sc with e | b
  · simp [inner_run]
  · rcases b with _ | _
    · simp [inner_run] at h
    · rcases hbr : br with _ | _
      · rcases rc with e | r
        · simp [inner_run, hbr]
        · rcases har : ar with _ | _
          · simp [inner_run, hbr, har] at h
          · simp [inner_run, hbr, har]
      · simp [inner_run, hbr]

theorem afterDone_not_mem_take (s : RunSpec) (n : Nat)
    (h : n < (inner_run s).1.length) :
    RunEvent.afterDone ∉ (inner_run s).1.take n := by
  rcases s with ⟨sc, br, rc, ar, tm⟩
  rcases sc with e | b
  · simp [inner_run] at h
  · rcases b with _ | _
    · intro hm
      have := List.take_subset n _ hm
      simp [inner_run] at this
    · rcases hbr : br with _ | _
      · rcases rc with e | r
        · intro hm
          have := List.take_subset n _ hm
          simp [inner_run, hbr] at this
        · rcases har : ar with _ | _
          · simp only [inner_run, hbr, har] at h ⊢
            simp at h
            interval_cases n <;> simp
          · intro hm
            have := List.take_subset n _ hm
            simp [inner_run, hbr, har] at this
      · simp [inner_run, hbr] at h

theorem afterDone_not_mem_run_of_raised (s : RunSpec)
    (h : (timed_run s).2 = true) : RunEvent.afterDone ∉ (run s).1 := by
  have hsteps : (run s).1 = (timed_run s).1 ++ [.setState FAILED] := by
    simp [run, h]
  rw [hsteps]
  intro hm
  rcases List.mem_append.mp hm with hm | hm
  · unfold timed_run at hm h
    cases htm : s.timeout with
    | none =>
      rw [htm] at hm h
      exact afterDone_not_mem_inner_of_raised s h hm
    | some n =>
      rw [htm] at hm h
      simp only at hm h
      by_cases hlt : n < (inner_run s).1.length
      · rw [if_pos hlt] at hm
        exact afterDone_not_mem_take s n hlt hm
      · rw [if_neg hlt] at hm h
        exact afterDone_not_mem_inner_of_raised s h hm
  · simp at hm

theorem run_state_of_raised (s : RunSpec) (h : (timed_run s).2 = true) :
    (run s).2.1 = FAILED := by
  have : (run s).1 = (timed_run s).1 ++ [.setState FAILED] := by simp [run, h]
  simp [run, h, final_state_append_set]

end Component

/-! ## Claim theorems for the pipeline component (C1, C5) -/

/-- C1 counterexample: on the concrete run `c1_cex_spec` the body is
started (`RUNNING` is recorded) and raises, the component ends `FAILED`,
yet the after handlers never execute — refuting the claim that the
after handlers run strictly after the body on every run, including runs
in which the body raises. -/
theorem c1_after_handler_cex :
    Component.RunEvent.setState .RUNNING ∈ (Component.run c1_cex_spec).1
    ∧ (Component.run c1_cex_spec).2.1 = .FAILED
    ∧ Component.RunEvent.afterDone ∉ (Component.run c1_cex_spec).1 := by
  decide

/-- C1 (amended): the after handlers run strictly after the component's
body exactly on the runs where the body returns without raising and the
run is not cut off by the timeout (the full step sequence is then
`before, RUNNING, body, result state, after`); on a run that raises or
exceeds the timeout the state is `FAILED` and the after handlers do not
execute. -/
theorem c1_after_handler_amended (s : Component.RunSpec) :
    (∀ r, Component.no_cut s = true → s.start_condition = .ok true →
      s.before_raises = false → s.run_component = .ok r → s.after_raises = false →
      (Component.run s).1 =
        [.beforeDone, .setState .RUNNING, .bodyDone, .setState (r.getD .FINISHED),
          .afterDone])
    ∧ ((Component.timed_run s).2 = true →
        Component.RunEvent.afterDone ∉ (Component.run s).1
        ∧ (Component.run s).2.1 = .FAILED) := by
  constructor
  · intro r hnc hsc hbr hrc har
    have ht := Component.timed_run_of_no_cut s hnc
    have hin : Component.inner_run s =
        ([.beforeDone, .setState .RUNNING, .bodyDone, .setState (r.getD .FINISHED),
          .afterDone], false) := by
      simp [Component.inner_run, hsc, hbr, hrc, har]
    simp [Component.run, ht, hin]
  · intro h
    exact ⟨Component.afterDone_not_mem_run_of_raised s h,
      Component.run_state_of_raised s h⟩

/-- Witness for `c1_after_handler_amended`: a normal run shows the full
ordered step sequence; a run with a raising body shows the after
handlers skipped and the state `FAILED`. -/
theorem c1_after_handler_amended_witness :
    (Component.run
        { start_condition := .ok true, before_raises := false,
          run_component := .ok none, after_raises := false,
          timeout := none : Component.RunSpec }).1 =
      [.beforeDone, .setState .RUNNING, .bodyDone, .setState .FINISHED, .afterDone]
    ∧ (Component.RunEvent.afterDone ∉ (Component.run c1_cex_spec).1
        ∧ (Component.run c1_cex_spec).2.1 = .FAILED) :=
  ⟨(c1_after_handler_amended _).1 none rfl rfl rfl rfl rfl,
    (c1_after_handler_amended c1_cex_spec).2 rfl⟩

/-- C5: postcondition of `PipelineComponent._run` — the finished event
is always set; when the run is not cut by the timeout: a false start
condition records `NOT_RUN` and never invokes the body, and a normally
returning body records its explicit state (or `FINISHED`); any raised
exception or timeout records `FAILED` and is not propagated (`run` is
total). -/
theorem c5_run_postcondition (s : Component.RunSpec) :
    (Component.run s).2.2 = true
    ∧ (Component.no_cut s = true → s.start_condition = .ok false →
        (Component.run s).2.1 = .NOT_RUN
        ∧ Component.RunEvent.setState .RUNNING ∉ (Component.run s).1
        ∧ Component.RunEvent.bodyDone ∉ (Component.run s).1)
    ∧ (∀ r, Component.no_cut s = true → s.start_condition = .ok true →
        s.before_raises = false → s.run_component = .ok r → s.after_raises = false →
        (Component.run s).2.1 = r.getD .FINISHED)
    ∧ ((Component.timed_run s).2 = true → (Component.run s).2.1 = .FAILED) := by
  refine ⟨rfl, ?_, ?_, ?_⟩
  · intro hnc hsc
    have ht := Component.timed_run_of_no_cut s hnc
    have hin : Component.inner_run s = ([.setState .NOT_RUN], false) := by
      simp [Component.inner_run, hsc]
    refine ⟨?_, ?_, ?_⟩ <;> simp [Component.run, ht, hin, Component.final_state]
  · intro r hnc hsc hbr hrc har
    have ht := Component.timed_run_of_no_cut s hnc
    have hin : Component.inner_run s =
        ([.beforeDone, .setState .RUNNING, .bodyDone, .setState (r.getD .FINISHED),
          .afterDone], false) := by
      simp [Component.inner_run, hsc, hbr, hrc, har]
    simp [Component.run, ht, hin, Component.final_state]
  · intro h
    exact Component.run_state_of_raised s h

/-- Witness for `c5_run_postcondition` at three concrete runs: a false
start condition, a body returning an explicit `NOT_RUN` state, and a
timed-out run. -/
theorem c5_run_postcondition_witness :
    ((Component.run
        { start_condition := .ok false, before_raises := false,
          run_component := .ok none, after_raises := false,
          timeout := none : Component.RunSpec }).2.1 = .NOT_RUN
      ∧ Component.RunEvent.setState .RUNNING ∉ (Component.run
        { start_condition := .ok false, before_raises := false,
          run_component := .ok none, after_raises := false,
          timeout := none : Component.RunSpec }).1
      ∧ Component.RunEvent.bodyDone ∉ (Component.run
        { start_condition := .ok false, before_raises := false,
          run_component := .ok none, after_raises := false,
          timeout := none : Component.RunSpec }).1)
    ∧ (Component.run
        { start_condition := .ok true, before_raises := false,
          run_component := .ok (some .NOT_RUN), after_raises := false,
          timeout := none : Component.RunSpec }).2.1 = (some ComponentExecutionState.NOT_RUN).getD .FINISHED
    ∧ (Component.run
        { start_condition := .ok true, before_raises := false,
          run_component := .ok none, after_raises := false,
          timeout := some 2 : Component.RunSpec }).2.1 = .FAILED :=
  ⟨(c5_run_postcondition _).2.1 rfl rfl,
    (c5_run_postcondition _).2.2.1 (some .NOT_RUN) rfl rfl rfl rfl rfl,
    (c5_run_postcondition _).2.2.2 rfl⟩

/-! ## Lemmas about the group scheduler -/

namespace Group

theorem sum_len_nil : sum_len [] = 0 := rfl

theorem sum_len_cons (q : List (List String)) (qs : List (List (List String))) :
    sum_len (q :: qs) = q.length + sum_len qs := by
  simp [sum_len]

theorem sum_len_filter_le (qs : List (List (List String))) :
    sum_len (qs.filter (fun q => !q.isEmpty)) ≤ sum_len qs := by
  induction qs with
  | nil => simp
  | cons a qs ih =>
    rw [List.filter_cons]
    cases ha : a.isEmpty with
    | true =>
      simp only [ha, Bool.not_true, Bool.false_eq_true, if_false, sum_len_cons]
      omega
    | false =>
      simp only [ha, Bool.not_false, if_true, sum_len_cons]
      omega

theorem sum_len_rr_rest_le (qs : List (List (List String))) :
    sum_len (rr_rest qs) ≤ sum_len qs := by
  induction qs with
  | nil => simp [rr_rest, sum_len]
  | cons a qs ih =>
    simp only [rr_rest, List.map_cons, List.filter_cons] at ih ⊢
    have hta : a.tail.length ≤ a.length := by
      cases a <;> simp
    cases ha : a.tail.isEmpty with
    | true =>
      simp only [ha, Bool.not_true, Bool.false_eq_true, if_false, sum_len_cons]
      omega
    | false =>
      simp only [ha, Bool.not_false, if_true, sum_len_cons]
      omega

theorem sum_len_rr_rest_lt (qs : List (List (List String)))
    (q : List (List String)) (hq : q ∈ qs) (hne : q ≠ []) :
    sum_len (rr_rest qs) < sum_len qs := by
  induction qs with
  | nil => cases hq
  | cons a qs ih =>
    simp only [rr_rest, List.map_cons, List.filter_cons] at ih ⊢
    rcases List.mem_cons.mp hq with rfl | hq
    · have hta : q.tail.length + 1 ≤ q.length := by
        cases q with
        | nil => cases hne rfl
        | cons c cs => simp
      have hrest : sum_len ((qs.map List.tail).filter (fun r => !r.isEmpty)) ≤ sum_len qs :=
        sum_len_rr_rest_le qs
      cases ha : q.tail.isEmpty with
      | true =>
        simp only [ha, Bool.not_true, Bool.false_eq_true, if_false, sum_len_cons]
        omega
      | false =>
        simp only [ha, Bool.not_false, if_true, sum_len_cons]
        omega
    · have hrec := ih hq
      have hta : a.tail.length ≤ a.length := by cases a <;> simp
      cases ha : a.tail.isEmpty with
      | true =>
        simp only [ha, Bool.not_true, Bool.false_eq_true, if_false, sum_len_cons]
        omega
      | false =>
        simp only [ha, Bool.not_false, if_true, sum_len_cons]
        omega

theorem sum_len_pos_of_mem (qs : List (List (List String)))
    (q : List (List String)) (hq : q ∈ qs) (hne : q ≠ []) :
    0 < sum_len qs := by
  induction qs with
  | nil => cases hq
  | cons a qs ih =>
    rcases List.mem_cons.mp hq with rfl | hq2
    · rw [sum_len_cons]
      have := List.length_pos.mpr hne
      omega
    · rw [sum_len_cons]
      have := ih hq2
      omega

theorem mem_rr_go (n : Nat) :
    ∀ qs : List (List (List String)), sum_len qs ≤ n →
      ∀ q ∈ qs, ∀ e ∈ q.flatten, e ∈ rr_go n qs := by
  induction n with
  | zero =>
    intro qs hsum q hq e he
    have hne : q ≠ [] := by
      intro h
      rw [h] at he
      simp at he
    have := sum_len_pos_of_mem qs q hq hne
    omega
  | succ n ih =>
    intro qs hsum q hq e he
    have hqs : qs.isEmpty = false := by
      cases qs with
      | nil => cases hq
      | cons a qs => rfl
    rw [rr_go]
    simp only [hqs, Bool.false_eq_true, if_false, List.mem_append]
    cases q with
    | nil => simp at he
    | cons c cs =>
      rcases List.mem_flatten.mp he with ⟨chunk, hchunk, hechunk⟩
      rcases List.mem_cons.mp hchunk with rfl | hcs
      · left
        apply List.mem_flatten.mpr
        refine ⟨chunk, ?_, hechunk⟩
        apply List.mem_filterMap.mpr
        exact ⟨chunk :: cs, hq, rfl⟩
      · right
        have hcsne : cs ≠ [] := by
          intro h
          rw [h] at hcs
          cases hcs
        have hcsmem : cs ∈ rr_rest qs := by
          apply List.mem_filter.mpr
          constructor
          · apply List.mem_map.mpr
            exact ⟨c :: cs, hq, rfl⟩
          · simp [hcsne, List.isEmpty_iff]
        have hlt : sum_len (rr_rest qs) < sum_len qs :=
          sum_len_rr_rest_lt qs (c :: cs) hq (by simp)
        have hle : sum_len (rr_rest qs) ≤ n := by omega
        exact ih (rr_rest qs) hle cs hcsmem e (List.mem_flatten.mpr ⟨chunk, hcs, hechunk⟩)

theorem mem_round_robin (qs : List (List (List String)))
    (q : List (List String)) (hq : q ∈ qs) (e : String) (he : e ∈ q.flatten) :
    e ∈ round_robin qs := by
  unfold round_robin
  have hne : q ≠ [] := by
    intro h
    rw [h] at he
    simp at he
  have hmem : q ∈ qs.filter (fun r => !r.isEmpty) := by
    apply List.mem_filter.mpr
    exact ⟨hq, by simp [hne, List.isEmpty_iff]⟩
  exact mem_rr_go (sum_len qs) _ (sum_len_filter_le qs) q hmem e he

end Group

/-! ## Claim theorems for the service group scheduler (C2, C4, C10) -/

/-- C2 (divergence witness): on the group of
`tests/pipeline/test_pipeline.py::test_async_services` — two
asynchronous three-step children followed by a synchronous three-step
child — the `ServiceGroup.run_component` of
`chatsky/pipeline/service/group.py` runs every child sequentially
(`A1 A2 A3 B1 B2 B3 C1 C2 C3`), whereas the contiguous-parallel-subgroup
rule of the spec (asserted by that test) interleaves the two
asynchronous children before the synchronous one
(`A1 B1 A2 B2 A3 B3 C1 C2 C3`). -/
theorem c2_mixed_group_divergence :
    Group.run_component_trace test_async_group =
      ["A1", "A2", "A3", "B1", "B2", "B3", "C1", "C2", "C3"]
    ∧ Group.subgroup_run_trace test_async_group =
      ["A1", "B1", "A2", "B2", "A3", "B3", "C1", "C2", "C3"]
    ∧ Group.run_component_trace test_async_group ≠
      Group.subgroup_run_trace test_async_group := by
  refine ⟨by decide, by decide, by decide⟩

/-- C4: after `ServiceGroup.run_component`, the group's recorded state
is `FAILED` exactly when some child ended `FAILED` and `FINISHED`
otherwise; and every child's full event sequence appears in the group
trace — a failing child never prevents a sibling from running to
completion (each child's `__call__` swallows its exceptions). -/
theorem c4_group_state (g : List Group.Child) :
    (Group.run_component_state g = .FAILED ↔ ∃ c ∈ g, c.state = .FAILED)
    ∧ (Group.run_component_state g ≠ .FAILED →
        Group.run_component_state g = .FINISHED)
    ∧ (∀ c ∈ g, ∀ e ∈ c.chunks.flatten, e ∈ Group.run_component_trace g) := by
  refine ⟨⟨?_, ?_⟩, ?_, ?_⟩
  · intro h
    cases hany : g.any (fun c => c.state == .FAILED) with
    | true =>
      have := List.any_eq_true.mp hany
      simpa using this
    | false =>
      unfold Group.run_component_state at h
      rw [hany] at h
      simp at h
  · intro h
    rcases h with ⟨c, hc, hs⟩
    unfold Group.run_component_state
    have hany : g.any (fun c => c.state == .FAILED) = true :=
      List.any_eq_true.mpr ⟨c, hc, by simp [hs]⟩
    simp [hany]
  · intro h
    unfold Group.run_component_state at *
    cases hany : g.any (fun c => c.state == .FAILED) with
    | true => rw [hany] at h; simp at h
    | false => simp
  · intro c hc e he
    unfold Group.run_component_trace
    cases hflag : Group.calculate_async_flag g with
    | true =>
      simp only [hflag, if_true]
      exact Group.mem_round_robin _ c.chunks (List.mem_map.mpr ⟨c, hc, rfl⟩) e he
    | false =>
      simp only [hflag, Bool.false_eq_true, if_false]
      exact List.mem_flatten.mpr ⟨c.chunks.flatten, List.mem_map.mpr ⟨c, hc, rfl⟩, he⟩

/-- Witness for `c4_group_state` on a group whose first child failed:
the group's state is `FAILED`, yet the sibling's event still appears in
the trace. -/
theorem c4_group_state_witness :
    Group.run_component_state failed_group_example = .FAILED
    ∧ "y" ∈ Group.run_component_trace failed_group_example :=
  ⟨(c4_group_state failed_group_example).1.mpr
      ⟨{ asynchronous := true, chunks := [["x"]], state := .FAILED },
        by decide, rfl⟩,
    (c4_group_state failed_group_example).2.2
      { asynchronous := true, chunks := [["y"]], state := .FINISHED }
      (by decide) "y" (by decide)⟩

/-- Consistency of the two scheduler embeddings: for a group with no
explicit requested flag, the dispatch keyed on the `asynchronous`
property coincides with the dispatch keyed on the calculated flag. -/
theorem run_component_trace_eq_run_trace (components : List Group.Child) :
    Group.run_component_trace components =
      Group.ServiceGroup.run_trace { requested_async_flag := none, components } := by
  unfold Group.run_component_trace Group.ServiceGroup.run_trace
    Group.ServiceGroup.asynchronous
  simp [Option.getD]

/-- C10 counterexample: every child of `c10_cex_group` is asynchronous
(its calculated flag holds), yet the explicit
`requested_async_flag = False` makes the group's `asynchronous`
property — the flag `run_component` dispatches on — false, so the
children run sequentially (`a1 a2 b1 b2`) instead of the concurrent
round-robin (`a1 b1 a2 b2`): the claim's "dispatches concurrently if
every child is asynchronous" direction fails. -/
theorem c10_requested_sync_cex :
    Group.calculate_async_flag c10_cex_group.components = true
    ∧ c10_cex_group.asynchronous = false
    ∧ Group.ServiceGroup.run_trace c10_cex_group = ["a1", "a2", "b1", "b2"]
    ∧ Group.round_robin (c10_cex_group.components.map (fun c => c.chunks)) =
        ["a1", "b1", "a2", "b2"]
    ∧ Group.ServiceGroup.run_trace c10_cex_group ≠
        Group.round_robin (c10_cex_group.components.map (fun c => c.chunks)) := by
  decide

/-- C10 (amended): the group's calculated async flag is the conjunction
of its children's flags, and `run_component` dispatches on the group's
`asynchronous` property — the calculated flag unless an explicit
`requested_async_flag` overrides it to `False`.  A group containing a
synchronous child is never dispatched concurrently; absent an explicit
request the dispatch is concurrent exactly when every child is
asynchronous; and whenever the property is false all children —
including asynchronous ones — run strictly sequentially in declaration
order, each awaited to completion before the next starts (the trace is
the concatenation of the children's full traces), while a true property
dispatches all children concurrently (round-robin of their chunks). -/
theorem c10_dispatch_amended (g : Group.ServiceGroup) :
    Group.calculate_async_flag g.components =
      g.components.all (fun c => c.asynchronous)
    ∧ (Group.calculate_async_flag g.components = false → g.asynchronous = false)
    ∧ (g.requested_async_flag = none →
        g.asynchronous = Group.calculate_async_flag g.components)
    ∧ (g.asynchronous = false →
        Group.ServiceGroup.run_trace g =
          (g.components.map (fun c => c.chunks.flatten)).flatten)
    ∧ (g.asynchronous = true →
        Group.ServiceGroup.run_trace g =
          Group.round_robin (g.components.map (fun c => c.chunks))) := by
  refine ⟨rfl, ?_, ?_, ?_, ?_⟩
  · intro h
    simp [Group.ServiceGroup.asynchronous, h]
  · intro h
    simp [Group.ServiceGroup.asynchronous, h]
  · intro h
    simp [Group.ServiceGroup.run_trace, h]
  · intro h
    simp [Group.ServiceGroup.run_trace, h]

/-- Witness for `c10_dispatch_amended`: the explicitly-synchronous
all-async group runs sequentially, and the same children with no
explicit request dispatch concurrently. -/
theorem c10_dispatch_amended_witness :
    Group.ServiceGroup.run_trace c10_cex_group =
      (c10_cex_group.components.map (fun c => c.chunks.flatten)).flatten
    ∧ Group.ServiceGroup.run_trace
        { requested_async_flag := none, components := c10_cex_group.components } =
      Group.round_robin (c10_cex_group.components.map (fun c => c.chunks)) :=
  ⟨(c10_dispatch_amended c10_cex_group).2.2.2.1 rfl,
    (c10_dispatch_amended
      { requested_async_flag := none,
        components := c10_cex_group.components }).2.2.2.2 rfl⟩

/-! ## Lemmas about sorted key lists -/

namespace Ctx

theorem mem_of_getLast?_key : ∀ (l : List Nat) (k : Nat), l.getLast? = some k → k ∈ l := by
  intro l
  induction l with
  | nil => intro k h; cases h
  | cons a l ih =>
    intro k h
    cases l with
    | nil =>
      rw [List.getLast?_singleton] at h
      cases h
      exact List.mem_singleton_self a
    | cons b l2 =>
      rw [List.getLast?_cons_cons] at h
      exact List.mem_cons_of_mem a (ih k h)

theorem getLast?_isSome_of_ne_nil : ∀ (l : List Nat), l ≠ [] → ∃ k, l.getLast? = some k := by
  intro l
  induction l with
  | nil => intro h; cases h rfl
  | cons a l ih =>
    intro _
    cases l with
    | nil => exact ⟨a, List.getLast?_singleton a⟩
    | cons b l2 =>
      rcases ih (by simp) with ⟨k, hk⟩
      exact ⟨k, by rw [List.getLast?_cons_cons]; exact hk⟩

theorem sorted_le_getLast : ∀ (l : List Nat),
    List.Sorted (fun a b => a ≤ b) l → ∀ k, l.getLast? = some k → ∀ x ∈ l, x ≤ k := by
  intro l
  induction l with
  | nil => intro _ k h; cases h
  | cons a l ih =>
    intro hs k hk x hx
    cases l with
    | nil =>
      rw [List.getLast?_singleton] at hk
      cases hk
      rcases List.mem_singleton.mp hx with rfl
      exact Nat.le_refl x
    | cons b l2 =>
      rw [List.getLast?_cons_cons] at hk
      have hkmem : k ∈ b :: l2 := mem_of_getLast?_key _ k hk
      rcases List.mem_cons.mp hx with rfl | hx2
      · exact List.rel_of_sorted_cons hs k hkmem
      · exact ih (List.Sorted.of_cons hs) k hk x hx2

theorem last_item_ok (d : ContextDict) (hne : d.keys ≠ []) :
    ∃ k, k ∈ d.keys ∧ (∀ x ∈ d.keys, x ≤ k) ∧
      Context.last_item d = (match d.get k with
        | some v => Except.ok v
        | none => Except.error AccessError.keyError) := by
  have hsortne : d.sorted_keys ≠ [] := by
    unfold ContextDict.sorted_keys
    intro h
    have hlen := congrArg List.length h
    rw [List.length_insertionSort] at hlen
    simp only [List.length_nil] at hlen
    exact hne (List.length_eq_zero.mp hlen)
  rcases getLast?_isSome_of_ne_nil _ hsortne with ⟨k, hk⟩
  have hkmem : k ∈ d.keys := by
    have hmem := mem_of_getLast?_key _ k hk
    unfold ContextDict.sorted_keys at hmem
    exact (List.mem_insertionSort _).mp hmem
  have h0 : ¬d.len = 0 := by
    simpa [ContextDict.len, List.length_eq_zero] using hne
  refine ⟨k, hkmem, ?_, ?_⟩
  · intro x hx
    have hx2 : x ∈ d.sorted_keys := by
      unfold ContextDict.sorted_keys
      exact (List.mem_insertionSort _).mpr hx
    exact sorted_le_getLast _ (List.sorted_insertionSort _ _) k hk x hx2
  · unfold Context.last_item
    rw [if_neg h0]
    unfold ContextDict.last_key
    rw [hk]

theorem last_item_empty (d : ContextDict) (h : d.keys = []) :
    Context.last_item d = .error .contextError := by
  unfold Context.last_item
  rw [if_pos (by simp [ContextDict.len, h])]

theorem last_item_contextError_iff (d : ContextDict) :
    Context.last_item d = .error .contextError ↔ d.keys = [] := by
  constructor
  · intro h
    by_contra hne
    rcases last_item_ok d hne with ⟨k, _, _, heq⟩
    rw [heq] at h
    cases hget : d.get k with
    | some v => rw [hget] at h; simp at h
    | none => rw [hget] at h; simp at h
  · exact last_item_empty d

end Ctx

/-! ## Claim theorems for Context (C3, C6, C9) -/

/-- C3 counterexample: two contexts that agree on `id`,
`current_turn_id`, `labels`, `requests`, `responses` and `misc` but
differ in `framework_data` (and in the timestamps) compare unequal —
refuting the claim that equality ignores `framework_data`. -/
theorem c3_eq_framework_data_cex :
    c3_ctx_a.id = c3_ctx_b.id
    ∧ c3_ctx_a.current_turn_id = c3_ctx_b.current_turn_id
    ∧ c3_ctx_a.labels = c3_ctx_b.labels
    ∧ c3_ctx_a.requests = c3_ctx_b.requests
    ∧ c3_ctx_a.responses = c3_ctx_b.responses
    ∧ c3_ctx_a.misc = c3_ctx_b.misc
    ∧ Ctx.Context.eq c3_ctx_a c3_ctx_b = false := by
  decide

/-- C3 (amended): `Context.__eq__` ignores the `created_at`/`updated_at`
timestamps, but compares `framework_data` and the attached `_storage` in
addition to `id`, `current_turn_id`, `labels`, `requests`, `responses`
and `misc`: contexts agreeing on those eight compare equal, and changing
only the timestamps never changes the comparison. -/
theorem c3_eq_amended (a b : Ctx.Context) (t u : Nat) :
    (a.id = b.id → a.current_turn_id = b.current_turn_id → a.labels = b.labels →
      a.requests = b.requests → a.responses = b.responses → a.misc = b.misc →
      a.framework_data = b.framework_data → a.storage = b.storage →
      Ctx.Context.eq a b = true)
    ∧ Ctx.Context.eq { a with created_at := t, updated_at := u } b =
      Ctx.Context.eq a b := by
  constructor
  · intro h1 h2 h3 h4 h5 h6 h7 h8
    simp [Ctx.Context.eq, h1, h2, h3, h4, h5, h6, h7, h8]
  · rfl

/-- Witness for `c3_eq_amended`: a context equals itself, and changing
only its timestamps does not change the comparison. -/
theorem c3_eq_amended_witness :
    Ctx.Context.eq c3_ctx_a c3_ctx_a = true
    ∧ Ctx.Context.eq { c3_ctx_a with created_at := 9, updated_at := 10 } c3_ctx_a =
      Ctx.Context.eq c3_ctx_a c3_ctx_a :=
  ⟨(c3_eq_amended c3_ctx_a c3_ctx_a 0 0).1 rfl rfl rfl rfl rfl rfl rfl rfl,
    (c3_eq_amended c3_ctx_a c3_ctx_a 9 10).2⟩

/-- C6: `Context.connected` without an id yields a fresh context whose
turn counter is 0, whose labels map turn 0 to the start label, and whose
requests and responses are empty; with an id whose main info is stored,
it adopts the stored turn id, timestamps, misc and framework data, and
its three field dicts are the ones loaded from the storage (the source
issues the four loads in one `gather`). -/
theorem c6_connected (s : Ctx.Storage) (stok now : Nat) (sl : Store.Blob)
    (uid i : String) (m : Ctx.ContextInfo) :
    ((Ctx.Context.connected s stok now sl none uid).current_turn_id = 0
      ∧ (Ctx.Context.connected s stok now sl none uid).labels.items = [(0, sl)]
      ∧ (Ctx.Context.connected s stok now sl none uid).requests.items = []
      ∧ (Ctx.Context.connected s stok now sl none uid).responses.items = [])
    ∧ (s.main i = some m →
        (Ctx.Context.connected s stok now sl (some i) uid).current_turn_id = m.turn_id
        ∧ (Ctx.Context.connected s stok now sl (some i) uid).created_at = m.created_at
        ∧ (Ctx.Context.connected s stok now sl (some i) uid).updated_at = m.updated_at
        ∧ (Ctx.Context.connected s stok now sl (some i) uid).misc = m.misc
        ∧ (Ctx.Context.connected s stok now sl (some i) uid).framework_data =
            m.framework_data
        ∧ (Ctx.Context.connected s stok now sl (some i) uid).labels =
            Ctx.ContextDict.connected s i .labels
        ∧ (Ctx.Context.connected s stok now sl (some i) uid).requests =
            Ctx.ContextDict.connected s i .requests
        ∧ (Ctx.Context.connected s stok now sl (some i) uid).responses =
            Ctx.ContextDict.connected s i .responses) := by
  constructor
  · exact ⟨rfl, rfl, rfl, rfl⟩
  · intro h
    refine ⟨?_, ?_, ?_, ?_, ?_, ?_, ?_, ?_⟩ <;>
      simp [Ctx.Context.connected, h]

/-- Witness for `c6_connected` on a concrete one-context storage. -/
theorem c6_connected_witness :
    ((Ctx.Context.connected c6_storage 7 99 "start" none "uid").current_turn_id = 0
      ∧ (Ctx.Context.connected c6_storage 7 99 "start" none "uid").labels.items =
          [(0, "start")]
      ∧ (Ctx.Context.connected c6_storage 7 99 "start" none "uid").requests.items = []
      ∧ (Ctx.Context.connected c6_storage 7 99 "start" none "uid").responses.items = [])
    ∧ (Ctx.Context.connected c6_storage 7 99 "start" (some "ctx") "uid").current_turn_id =
        c6_main_info.turn_id
    ∧ (Ctx.Context.connected c6_storage 7 99 "start" (some "ctx") "uid").created_at =
        c6_main_info.created_at :=
  ⟨(c6_connected c6_storage 7 99 "start" "uid" "ctx" c6_main_info).1,
    ((c6_connected c6_storage 7 99 "start" "uid" "ctx" c6_main_info).2 (by decide)).1,
    ((c6_connected c6_storage 7 99 "start" "uid" "ctx" c6_main_info).2 (by decide)).2.1⟩

/-- C9 counterexample: on `c9_sparse_ctx` the labels dict is non-empty
(it knows keys 0 and 1) but its greatest key 1 was left unmaterialised,
so `last_label` raises the lookup's `KeyError` rather than returning a
stored value — and the error raised on this non-empty history is not
`ContextError`, refuting both halves of the claim. -/
theorem c9_unmaterialised_last_key_cex :
    c9_sparse_ctx.labels.keys ≠ []
    ∧ c9_sparse_ctx.labels.get 1 = none
    ∧ Ctx.Context.last_label c9_sparse_ctx = .error .keyError := by
  refine ⟨by decide, rfl, rfl⟩

/-- C9 (amended): each of `last_label`, `last_request` and
`last_response` raises `ContextError` exactly when the corresponding
history dict's key set is empty; otherwise it looks up the dict's last
(greatest) known key in the materialised items, returning the stored
value when that key is materialised and raising the lookup's `KeyError`
when the subscript left it unmaterialised. -/
theorem c9_last_accessors_amended (c : Ctx.Context) :
    ((Ctx.Context.last_label c = .error .contextError ↔ c.labels.keys = [])
      ∧ (c.labels.keys ≠ [] → ∃ k, k ∈ c.labels.keys
          ∧ (∀ x ∈ c.labels.keys, x ≤ k)
          ∧ Ctx.Context.last_label c = (match c.labels.get k with
              | some v => Except.ok v
              | none => Except.error Ctx.AccessError.keyError)))
    ∧ ((Ctx.Context.last_request c = .error .contextError ↔ c.requests.keys = [])
      ∧ (c.requests.keys ≠ [] → ∃ k, k ∈ c.requests.keys
          ∧ (∀ x ∈ c.requests.keys, x ≤ k)
          ∧ Ctx.Context.last_request c = (match c.requests.get k with
              | some v => Except.ok v
              | none => Except.error Ctx.AccessError.keyError)))
    ∧ ((Ctx.Context.last_response c = .error .contextError ↔ c.responses.keys = [])
      ∧ (c.responses.keys ≠ [] → ∃ k, k ∈ c.responses.keys
          ∧ (∀ x ∈ c.responses.keys, x ≤ k)
          ∧ Ctx.Context.last_response c = (match c.responses.get k with
              | some v => Except.ok v
              | none => Except.error Ctx.AccessError.keyError))) :=
  ⟨⟨Ctx.last_item_contextError_iff c.labels, Ctx.last_item_ok c.labels⟩,
    ⟨Ctx.last_item_contextError_iff c.requests, Ctx.last_item_ok c.requests⟩,
    ⟨Ctx.last_item_contextError_iff c.responses, Ctx.last_item_ok c.responses⟩⟩

/-- Witness for `c9_last_accessors_amended`: on `c3_ctx_a` (all keys
materialised) `last_label` resolves the greatest key through the
materialised items. -/
theorem c9_last_accessors_amended_witness :
    (Ctx.Context.last_label c3_ctx_a = .error .contextError ↔
      c3_ctx_a.labels.keys = [])
    ∧ (∃ k, k ∈ c3_ctx_a.labels.keys ∧ (∀ x ∈ c3_ctx_a.labels.keys, x ≤ k)
        ∧ Ctx.Context.last_label c3_ctx_a = (match c3_ctx_a.labels.get k with
            | some v => Except.ok v
            | none => Except.error Ctx.AccessError.keyError)) :=
  ⟨(c9_last_accessors_amended c3_ctx_a).1.1,
    (c9_last_accessors_amended c3_ctx_a).1.2 (by decide)⟩

/-! ## Lemmas about the turns table (C7) -/

namespace Store

theorem Row.get_set_same (r : Row) (f : F) (v : Option Blob) :
    (r.set f v).get f = v := by
  cases f <;> rfl

theorem Row.id_set (r : Row) (f : F) (v : Option Blob) :
    (r.set f v).id = r.id := by
  cases f <;> rfl

theorem Row.key_set (r : Row) (f : F) (v : Option Blob) :
    (r.set f v).key = r.key := by
  cases f <;> rfl

theorem load_items_append (t1 t2 : Table) (i : String) (f : F) (ks : List Nat) :
    load_field_items (t1 ++ t2) i f ks =
      load_field_items t1 i f ks ++ load_field_items t2 i f ks := by
  simp [load_field_items, List.filterMap_append]

theorem load_items_nil_of_no_match (t : Table) (i : String) (f : F) (k : Nat)
    (h : ∀ r ∈ t, ¬(r.id = i ∧ r.key = k)) :
    load_field_items t i f [k] = [] := by
  induction t with
  | nil => rfl
  | cons r t ih =>
    unfold load_field_items at ih ⊢
    rw [List.filterMap_cons]
    rw [if_neg (by simpa using h r (List.mem_cons_self r t))]
    exact ih (fun s hs => h s (List.mem_cons_of_mem r hs))

theorem load_map_upsert (t : Table) (i : String) (f : F) (k : Nat) (v : Blob)
    (hwf : wf t) (hex : t.any (fun r => r.id == i && r.key == k) = true) :
    load_field_items
        (t.map (fun r => if r.id = i ∧ r.key = k then r.set f (some v) else r))
        i f [k] = [(k, v)] := by
  induction t with
  | nil => simp at hex
  | cons r t ih =>
    have hwfr := (List.pairwise_cons.mp hwf).1
    have hwft := (List.pairwise_cons.mp hwf).2
    by_cases hr : r.id = i ∧ r.key = k
    · rw [List.map_cons, if_pos hr]
      unfold load_field_items
      rw [List.filterMap_cons]
      rw [if_pos (by simp [Row.id_set, Row.key_set, hr.1, hr.2])]
      rw [Row.get_set_same]
      simp only [Option.map_some', Row.key_set, hr.2]
      have hnone : ∀ s ∈ t.map (fun s =>
          if s.id = i ∧ s.key = k then s.set f (some v) else s),
          ¬(s.id = i ∧ s.key = k) := by
        intro s hs hc
        rcases List.mem_map.mp hs with ⟨s0, hs0, rfl⟩
        have hd := hwfr s0 hs0
        by_cases hm : s0.id = i ∧ s0.key = k
        · rcases hd with hd | hd
          · exact hd (hr.1.trans hm.1.symm)
          · exact hd (hr.2.trans hm.2.symm)
        · rw [if_neg hm] at hc
          exact hm hc
      have := load_items_nil_of_no_match _ i f k hnone
      unfold load_field_items at this
      rw [this]
    · rw [List.map_cons, if_neg hr]
      unfold load_field_items
      rw [List.filterMap_cons]
      rw [if_neg (by simpa using hr)]
      have hex2 : t.any (fun s => s.id == i && s.key == k) = true := by
        rcases List.any_eq_true.mp hex with ⟨s, hs, hmatch⟩
        rcases List.mem_cons.mp hs with rfl | hs2
        · exfalso
          apply hr
          simpa using hmatch
        · exact List.any_eq_true.mpr ⟨s, hs2, hmatch⟩
      have := ih hwft hex2
      unfold load_field_items at this
      exact this

end Store

/-! ### Claim theorem C7 -/

/-- C7: the store–load round trip — on a well-formed turns table
(unique `(id, key)` index), writing a value for a key of a field with
`update_field_items` and then reading that key back with
`load_field_items` yields exactly the written value. -/
theorem c7_store_load_round_trip (t : Store.Table) (i : String) (f : Store.F)
    (k : Nat) (v : Store.Blob) (hwf : Store.wf t) :
    Store.load_field_items
        (Store.update_field_items t i f [(k, some v)]) i f [k] = [(k, v)] := by
  unfold Store.update_field_items
  simp only [List.foldl_cons, List.foldl_nil]
  unfold Store.upsert_one
  cases hany : t.any (fun r => r.id == i && r.key == k) with
  | true =>
    simp only [hany, if_true]
    exact Store.load_map_upsert t i f k v hwf hany
  | false =>
    simp only [hany, Bool.false_eq_true, if_false]
    rw [Store.load_items_append]
    have hno : ∀ r ∈ t, ¬(r.id = i ∧ r.key = k) := by
      intro r hr hc
      have : t.any (fun r => r.id == i && r.key == k) = true :=
        List.any_eq_true.mpr ⟨r, hr, by simp [hc.1, hc.2]⟩
      rw [hany] at this
      cases this
    rw [Store.load_items_nil_of_no_match t i f k hno]
    cases f <;> simp [Store.load_field_items, Store.fresh_row, Store.Row.set,
      Store.Row.get]

/-- Witness for `c7_store_load_round_trip` on the empty table. -/
theorem c7_store_load_round_trip_witness :
    Store.load_field_items
        (Store.update_field_items [] "ctx" .labels [(0, some "blob")])
        "ctx" .labels [0] = [(0, "blob")] :=
  c7_store_load_round_trip [] "ctx" .labels 0 "blob" List.Pairwise.nil

/-! ## Lemmas about load_field_latest (C8) -/

namespace Store

theorem mem_entries_iff (t : Table) (i : String) (f : F) (k : Nat) (v : Blob) :
    (k, v) ∈ entries t i f ↔ row_val t i f k v := by
  unfold entries row_val
  rw [List.mem_filterMap]
  constructor
  · rintro ⟨r, hr, hg⟩
    by_cases hid : r.id = i
    · rw [if_pos hid] at hg
      cases hgv : r.get f with
      | none => rw [hgv] at hg; cases hg
      | some w =>
        rw [hgv] at hg
        simp only [Option.map_some'] at hg
        injection hg with hg
        have hk : r.key = k := congrArg Prod.fst hg
        have hv : w = v := congrArg Prod.snd hg
        exact ⟨r, hr, hid, hk, by rw [hgv, hv]⟩
    · rw [if_neg hid] at hg
      cases hg
  · rintro ⟨r, hr, hid, hk, hv⟩
    refine ⟨r, hr, ?_⟩
    rw [if_pos hid, hv]
    simp [hk]

theorem entries_cons (r : Row) (t : Table) (i : String) (f : F) :
    entries (r :: t) i f =
      (if r.id = i then ((r.get f).map (fun v => (r.key, v))).toList else [])
        ++ entries t i f := by
  unfold entries
  rw [List.filterMap_cons]
  by_cases hid : r.id = i
  · rw [if_pos hid, if_pos hid]
    cases r.get f <;> simp
  · rw [if_neg hid, if_neg hid]
    simp

theorem entries_keys_pairwise (t : Table) (i : String) (f : F) (hwf : wf t) :
    (entries t i f).Pairwise (fun p q => p.1 ≠ q.1) := by
  induction t with
  | nil => exact List.Pairwise.nil
  | cons r t ih =>
    have hwfr := (List.pairwise_cons.mp hwf).1
    have hwft := (List.pairwise_cons.mp hwf).2
    rw [entries_cons]
    by_cases hid : r.id = i
    · rw [if_pos hid]
      cases hgv : r.get f with
      | none => simpa using ih hwft
      | some w =>
        simp only [Option.map_some', Option.toList_some, List.singleton_append]
        apply List.Pairwise.cons
        · intro q hq
          have hq2 : q.1 ∈ (entries t i f).map Prod.fst :=
            List.mem_map.mpr ⟨q, hq, rfl⟩
          rcases List.mem_map.mp hq2 with ⟨q0, hq0, hqk⟩
          have hrv : row_val t i f q0.1 q0.2 :=
            (mem_entries_iff t i f q0.1 q0.2).mp (by simpa using hq0)
          rcases hrv with ⟨s, hs, hsid, hsk, _⟩
          rcases hwfr s hs with hd | hd
          · exact absurd (hid.trans hsid.symm) hd
          · simpa [← hqk, hsk] using hd
        · exact ih hwft
    · rw [if_neg hid]
      simpa using ih hwft

theorem sorted_strict_desc (l : List (Nat × Blob))
    (hnd : l.Pairwise (fun p q => p.1 ≠ q.1)) :
    (List.insertionSort key_desc l).Pairwise (fun p q => q.1 < p.1) := by
  have hs : (List.insertionSort key_desc l).Pairwise key_desc :=
    List.sorted_insertionSort key_desc l
  have hnd2 : (List.insertionSort key_desc l).Pairwise (fun p q => p.1 ≠ q.1) :=
    ((List.perm_insertionSort key_desc l).pairwise_iff (fun h => Ne.symm h)).mpr hnd
  exact (hs.and hnd2).imp (fun h => Nat.lt_of_le_of_ne h.1 (Ne.symm h.2))

theorem mem_take_strict_desc (k : Nat) (v : Blob) :
    ∀ (l : List (Nat × Blob)), l.Pairwise (fun p q => q.1 < p.1) →
      ∀ n, ((k, v) ∈ l.take n ↔
        (k, v) ∈ l ∧ (l.filter (fun p => k < p.1)).length < n) := by
  intro l
  induction l with
  | nil => intro _ n; simp
  | cons p l ih =>
    intro hl n
    have hp := (List.pairwise_cons.mp hl).1
    have hlt := (List.pairwise_cons.mp hl).2
    cases n with
    | zero => simp
    | succ m =>
      rw [List.take_succ_cons]
      by_cases hkp : (k, v) = p
      · cases hkp
        constructor
        · intro _
          refine ⟨List.mem_cons_self _ _, ?_⟩
          rw [List.filter_cons]
          rw [if_neg (by simp)]
          have hfl : l.filter (fun q => k < q.1) = [] := by
            apply List.filter_eq_nil_iff.mpr
            intro q hq
            have := hp q hq
            simp only [decide_eq_true_eq]
            omega
          rw [hfl]
          simp
        · intro _
          exact List.mem_cons_self _ _
      · by_cases hmem : (k, v) ∈ l
        · have hkp1 : k < p.1 := hp (k, v) hmem
          rw [List.filter_cons]
          rw [if_pos (by simpa using hkp1)]
          constructor
          · intro h
            rcases List.mem_cons.mp h with h | h
            · exact absurd h hkp
            · have h2 := (ih hlt m).mp h
              refine ⟨List.mem_cons_of_mem p h2.1, ?_⟩
              simp only [List.length_cons]
              omega
          · rintro ⟨h1, h2⟩
            rcases List.mem_cons.mp h1 with h1 | h1
            · exact absurd h1 hkp
            · apply List.mem_cons_of_mem
              apply (ih hlt m).mpr
              refine ⟨h1, ?_⟩
              simp only [List.length_cons] at h2
              omega
        · constructor
          · intro h
            rcases List.mem_cons.mp h with h | h
            · exact absurd h hkp
            · exact absurd (List.take_subset m l h) hmem
          · rintro ⟨h1, _⟩
            rcases List.mem_cons.mp h1 with h1 | h1
            · exact absurd h1 hkp
            · exact absurd h1 hmem

end Store

/-! ### Claim theorem C8 -/

/-- C8: `load_field_latest` returns exactly the non-null `(key, value)`
pairs of the context's field, restricted by the field's subscript —
everything for `all`, the keys of the set for a key-set subscript, and
for an integer subscript `n` the keys with fewer than `n` larger
non-null keys (the last `n` keys) — ordered by key strictly
descending. -/
theorem c8_load_field_latest (t : Store.Table) (i : String) (f : Store.F)
    (hwf : Store.wf t) :
    (∀ sub, (Store.load_field_latest t sub i f).Pairwise (fun p q => q.1 < p.1))
    ∧ (∀ k v, ((k, v) ∈ Store.load_field_latest t .all i f ↔
        Store.row_val t i f k v))
    ∧ (∀ ks k v, ((k, v) ∈ Store.load_field_latest t (.keyset ks) i f ↔
        Store.row_val t i f k v ∧ k ∈ ks))
    ∧ (∀ n k v, ((k, v) ∈ Store.load_field_latest t (.num n) i f ↔
        Store.row_val t i f k v ∧ Store.above_count t i f k < n)) := by
  have hnd := Store.entries_keys_pairwise t i f hwf
  refine ⟨?_, ?_, ?_, ?_⟩
  · intro sub
    cases sub with
    | num n =>
      simp only [Store.load_field_latest]
      exact (Store.sorted_strict_desc _ hnd).sublist (List.take_sublist _ _)
    | keyset ks =>
      simp only [Store.load_field_latest]
      exact Store.sorted_strict_desc _ (hnd.sublist (List.filter_sublist _))
    | all =>
      simp only [Store.load_field_latest]
      exact Store.sorted_strict_desc _ hnd
  · intro k v
    simp only [Store.load_field_latest]
    rw [List.mem_insertionSort]
    exact Store.mem_entries_iff t i f k v
  · intro ks k v
    simp only [Store.load_field_latest]
    rw [List.mem_insertionSort, List.mem_filter]
    rw [Store.mem_entries_iff t i f k v]
    simp
  · intro n k v
    simp only [Store.load_field_latest]
    rw [Store.mem_take_strict_desc k v _ (Store.sorted_strict_desc _ hnd) n]
    rw [List.mem_insertionSort]
    rw [Store.mem_entries_iff t i f k v]
    have hperm : List.Perm
        ((List.insertionSort Store.key_desc (Store.entries t i f)).filter
          (fun p => k < p.1))
        ((Store.entries t i f).filter (fun p => k < p.1)) :=
      (List.perm_insertionSort Store.key_desc (Store.entries t i f)).filter _
    rw [hperm.length_eq]
    rfl

/-- Witness for `c8_load_field_latest` on a three-row table with one
null entry and subscript 2: the two largest non-null keys come back in
descending order. -/
theorem c8_load_field_latest_witness :
    (1, "r1") ∈ Store.load_field_latest c8_table (.num 2) "ctx" .requests
    ∧ ((0, "r0") ∈ Store.load_field_latest c8_table (.num 2) "ctx" .requests ↔
        Store.row_val c8_table "ctx" .requests 0 "r0"
          ∧ Store.above_count c8_table "ctx" .requests 0 < 2) :=
  ⟨((c8_load_field_latest c8_table "ctx" .requests (by decide)).2.2.2 2 1 "r1").mpr
      (by decide),
    (c8_load_field_latest c8_table "ctx" .requests (by decide)).2.2.2 2 0 "r0"⟩

end Chatsky
